import Mathlib

/-!
Verification of the NanoFilt filtering/trimming engine
(`src/nanofilt/NanoFilt.py`) against its natural-language specification.

The data model and the operations are shallowly embedded: a FASTQ record
becomes a structure of an identifier, a character sequence and a list of
Phred quality scores; the argparse-produced configuration becomes a
structure of the fields the engine reads; Python list slicing becomes the
function `pyslice`; the two filtering loops `filter_stream` and
`filter_using_summary` become list-processing functions that also report
the fatal condition (division by zero in the GC computation, the domain
error of the quality aggregator, a summary-lookup mismatch) that aborts
the corresponding Python loop.
-/

namespace NanoFilt

/-- A decoded FASTQ record: `id` is the read identifier, `seq` the
nucleotide sequence, `quals` the per-base Phred quality scores
(`letter_annotations["phred_quality"]`).  `len(rec)` in Python is the
length of `seq`. -/
structure Rec where
  id : String
  seq : List Char
  quals : List Nat
  deriving DecidableEq, Repr

/-- The configuration fields of the parsed arguments that the engine
reads.  `minGC`/`maxGC` are user floats in `[0,1]`, modelled as rationals;
`headcrop`/`tailcrop` are optional integers (`None` when absent);
`GC_filter` is the flag derived by `get_args` (`False` iff
`minGC = 0.0` and `maxGC = 1.0`). -/
structure Config where
  length : Int
  quality : Int
  minGC : Rat
  maxGC : Rat
  headcrop : Option Int
  tailcrop : Option Int
  GC_filter : Bool
  deriving DecidableEq, Repr

/-- Python list slicing `l[start:stop]` with optional bounds: a negative
bound counts from the end, and both bounds are clamped to `[0, len l]`. -/
def pyslice {α : Type} (l : List α) (start stop : Option Int) : List α :=
  let n : Int := l.length
  let s : Int :=
    match start with
    | none => 0
    | some a => if a < 0 then max (n + a) 0 else min a n
  let e : Int :=
    match stop with
    | none => n
    | some b => if b < 0 then max (n + b) 0 else min b n
  (l.take e.toNat).drop s.toNat

/-- `rec[args.headcrop:args.tailcrop]`: a Biopython `SeqRecord` slice keeps
the identifier and slices the sequence and the per-letter quality scores
with the same bounds. -/
def trim (args : Config) (r : Rec) : Rec :=
  { id := r.id
    seq := pyslice r.seq args.headcrop args.tailcrop
    quals := pyslice r.quals args.headcrop args.tailcrop }

/-- The tail-crop normalization done by `main` before either filter runs:
`if args.tailcrop: args.tailcrop = -args.tailcrop`.  Python truthiness
skips the negation both when `tailcrop` is `None` and when it is `0`. -/
def normalize (args : Config) : Config :=
  match args.tailcrop with
  | none => args
  | some t => if t = 0 then args else { args with tailcrop := some (-t) }

/-- The GC computation of `filter_stream`:
`(rec.seq.upper().count("C") + rec.seq.upper().count("G")) / len(rec)`.
Python raises `ZeroDivisionError` on an empty record, modelled as `none`. -/
def gc_content (seq : List Char) : Option Rat :=
  if seq.length = 0 then none
  else some ((((seq.map Char.toUpper).count 'C' + (seq.map Char.toUpper).count 'G' : Nat) : Rat) / (seq.length : Rat))

/-- Modelled from the spec: `ave_qual` is imported from the external
`nanomath` package, whose code is not part of this repository.  Per the
spec (§4.1), it converts each Phred score `q` to its error probability
`10^(-q/10)`, takes the arithmetic mean of the probabilities, and converts
back with the inverse transform `-10·log10`; on an empty input it fails
fast with a domain error, modelled as `none`. -/
noncomputable def ave_qual (quals : List Nat) : Option Real :=
  if quals = [] then none
  else some (-10 * Real.logb 10 ((quals.map (fun (q : Nat) => (10 : Real) ^ (-(q : Real) / 10))).sum / quals.length))

/-- The per-score error probability `10^(-q/10)` of a Phred score. -/
noncomputable def errProb (q : Nat) : Real := (10 : Real) ^ (-(q : Real) / 10)

/-- The fatal conditions that abort the `filter_stream` loop: the
`ZeroDivisionError` of the GC computation on an empty record, and the
domain error of the quality aggregator on an empty score list. -/
inductive StreamErr : Type where
  | zeroDiv : StreamErr
  | emptyQuals : StreamErr
  deriving DecidableEq, Repr

/-- The effective minimum length computed once by `filter_stream`:
`minlen = args.length + int(args.headcrop or 0) - (int(args.tailcrop or 0))`
(`x or 0` maps both `None` and `0` to `0`). -/
def minlen (args : Config) : Int :=
  args.length + (args.headcrop.getD 0) - (args.tailcrop.getD 0)

open Classical in
/-- The `filter_stream` loop.  For each record, in source order: compute
the GC fraction when `GC_filter` is set (dummy `0.50` otherwise), compute
the average quality, and print the record sliced by
`[headcrop:tailcrop]` iff the average quality is strictly above
`args.quality`, the record length is strictly above `minlen`, and the GC
value lies within `[minGC, maxGC]`.  The result pairs the emitted records
with the fatal error, if any, that stopped the loop. -/
noncomputable def filter_stream (args : Config) : List Rec → List Rec × Option StreamErr
  | [] => ([], none)
  | r :: rs =>
    match (if args.GC_filter then gc_content r.seq else some (1 / 2 : Rat)) with
    | none => ([], some StreamErr.zeroDiv)
    | some gc =>
      match ave_qual r.quals with
      | none => ([], some StreamErr.emptyQuals)
      | some aq =>
        if (args.quality : Real) < aq ∧ minlen args < (r.seq.length : Int) ∧
            (args.minGC ≤ gc ∧ gc ≤ args.maxGC) then
          let p := filter_stream args rs
          (trim args r :: p.1, p.2)
        else filter_stream args rs

open Classical in
/-- The `filter_using_summary` loop over a prebuilt identifier→quality
mapping `data`.  For each record: look up `data[record.id]` (a missing key
raises `KeyError`, which aborts the run reporting the offending
identifier), and print the record sliced by `[headcrop:tailcrop]` iff the
looked-up quality is strictly above `args.quality` and the record length
is strictly above `args.length`.  The result pairs the emitted records
with the identifier of the mismatch that stopped the loop, if any. -/
noncomputable def filter_using_summary (data : String → Option Real) (args : Config) :
    List Rec → List Rec × Option String
  | [] => ([], none)
  | r :: rs =>
    match data r.id with
    | none => ([], some r.id)
    | some q =>
      if (args.quality : Real) < q ∧ args.length < (r.seq.length : Int) then
        let p := filter_using_summary data args rs
        (trim args r :: p.1, p.2)
      else filter_using_summary data args rs

open Classical in
/-- Filtering a list by a (classically decidable) predicate, used to state
the specification-side characterizations of the two loops. -/
noncomputable def filterP {α : Type} (p : α → Prop) : List α → List α
  | [] => []
  | x :: xs => if p x then x :: filterP p xs else filterP p xs

end NanoFilt

namespace NanoFilt

theorem trim_id (args : Config) (r : Rec) : (trim args r).id = r.id := rfl

theorem normalize_quality (args : Config) : (normalize args).quality = args.quality := by
  unfold normalize; split
  · rfl
  · split <;> rfl

theorem normalize_length (args : Config) : (normalize args).length = args.length := by
  unfold normalize; split
  · rfl
  · split <;> rfl

theorem normalize_headcrop (args : Config) : (normalize args).headcrop = args.headcrop := by
  unfold normalize; split
  · rfl
  · split <;> rfl

theorem normalize_minGC (args : Config) : (normalize args).minGC = args.minGC := by
  unfold normalize; split
  · rfl
  · split <;> rfl

theorem normalize_maxGC (args : Config) : (normalize args).maxGC = args.maxGC := by
  unfold normalize; split
  · rfl
  · split <;> rfl

theorem normalize_GC_filter (args : Config) : (normalize args).GC_filter = args.GC_filter := by
  unfold normalize; split
  · rfl
  · split <;> rfl

theorem normalize_tailcrop_none (args : Config) (h : args.tailcrop = none) :
    (normalize args).tailcrop = none := by
  simp [normalize, h]

theorem normalize_tailcrop_some (args : Config) (t : Int) (h : args.tailcrop = some t) :
    (normalize args).tailcrop = some (if t = 0 then t else -t) := by
  by_cases h0 : t = 0
  · simp [normalize, h, h0]
  · simp [normalize, h, h0]

/-- After the `main` normalization, the effective minimum length of
`filter_stream` is the configured minimum plus the head crop plus the
(non-negative) tail crop. -/
theorem minlen_normalize (args : Config) :
    minlen (normalize args) =
      args.length + args.headcrop.getD 0 + args.tailcrop.getD 0 := by
  unfold minlen
  rw [normalize_length, normalize_headcrop]
  rcases h : args.tailcrop with _ | t
  · rw [normalize_tailcrop_none args h]
    simp
  · rw [normalize_tailcrop_some args t h]
    by_cases h0 : t = 0
    · simp only [h0, if_pos, Option.getD_some]
      omega
    · simp only [if_neg h0, Option.getD_some]
      omega

/-- The acceptance condition of the specification for the Stream Filter
path, phrased over the raw (pre-normalization) configuration: average
quality per the Quality Aggregator strictly above the minimum quality,
pre-trim length strictly above `length + headcrop + tailcrop`, and the GC
fraction within `[minGC, maxGC]`, the GC conjunct holding vacuously when
GC filtering is not configured (`minGC = 0` and `maxGC = 1`). -/
def accept_spec (args : Config) (r : Rec) : Prop :=
  (∃ a, ave_qual r.quals = some a ∧ (args.quality : Real) < a) ∧
  args.length + args.headcrop.getD 0 + args.tailcrop.getD 0 < (r.seq.length : Int) ∧
  (¬(args.minGC = 0 ∧ args.maxGC = 1) →
    ∃ g, gc_content r.seq = some g ∧ args.minGC ≤ g ∧ g ≤ args.maxGC)

/-- The acceptance condition of the specification for the Summary-Joined
path: looked-up quality strictly above the minimum quality and pre-trim
length strictly above the configured minimum length, with no crop folding
and no GC conjunct. -/
def accept_summary_spec (data : String → Option Real) (args : Config) (r : Rec) : Prop :=
  ∃ q, data r.id = some q ∧ (args.quality : Real) < q ∧ args.length < (r.seq.length : Int)

/-- C1: Stream Filter acceptance condition.  After the `main` tail-crop
normalization, `filter_stream` runs to completion on a stream of
non-empty records and emits exactly the records satisfying `accept_spec`
— average quality (per `ave_qual`) strictly greater than the minimum
quality, pre-trim length strictly greater than
`length + headcrop + tailcrop` (crops as configured non-negative
magnitudes, absent meaning 0), and GC fraction within `[minGC, maxGC]`
inclusive, the GC conjunct being always true when GC filtering is not
configured — each emitted record trimmed by `[headcrop:tailcrop]`. -/
theorem stream_filter_acceptance (args : Config) (recs : List Rec)
    (hgc : args.GC_filter = true ↔ ¬(args.minGC = 0 ∧ args.maxGC = 1))
    (hne : ∀ r ∈ recs, r.seq ≠ [] ∧ r.quals ≠ []) :
    filter_stream (normalize args) recs =
      ((filterP (accept_spec args) recs).map (trim (normalize args)), none) := by
  induction recs with
  | nil => simp [filter_stream, filterP]
  | cons r rs ih =>
    obtain ⟨hseq, hquals⟩ := hne r (List.mem_cons_self r rs)
    have ih' := ih (fun s hs => hne s (List.mem_cons_of_mem r hs))
    have hlen0 : r.seq.length ≠ 0 := fun hh => hseq (List.length_eq_zero.mp hh)
    obtain ⟨aq, haq⟩ : ∃ a, ave_qual r.quals = some a := by
      unfold ave_qual; rw [if_neg hquals]; exact ⟨_, rfl⟩
    obtain ⟨g, hg⟩ : ∃ g, gc_content r.seq = some g := by
      unfold gc_content; rw [if_neg hlen0]; exact ⟨_, rfl⟩
    by_cases hgcf : args.GC_filter = true
    · have hgcn : (normalize args).GC_filter = true := by
        rw [normalize_GC_filter]; exact hgcf
      have hcond : (((normalize args).quality : Real) < aq ∧
          minlen (normalize args) < (r.seq.length : Int) ∧
          ((normalize args).minGC ≤ g ∧ g ≤ (normalize args).maxGC)) ↔ accept_spec args r := by
        rw [normalize_quality, normalize_minGC, normalize_maxGC, minlen_normalize]
        unfold accept_spec
        constructor
        · rintro ⟨h1, h2, h3⟩
          exact ⟨⟨aq, haq, h1⟩, h2, fun _ => ⟨g, hg, h3⟩⟩
        · rintro ⟨⟨a, ha, h1⟩, h2, h3⟩
          obtain ⟨g', hg', hg1, hg2⟩ := h3 (hgc.mp hgcf)
          rw [haq] at ha
          rw [hg] at hg'
          cases ha
          cases hg'
          exact ⟨h1, h2, hg1, hg2⟩
      simp only [filter_stream, hgcn, if_true, hg, haq, filterP]
      by_cases hP : accept_spec args r
      · rw [if_pos (hcond.mpr hP), if_pos hP, ih']
        simp
      · rw [if_neg (fun hc => hP (hcond.mp hc)), if_neg hP, ih']
    · have hgcn : (normalize args).GC_filter = false := by
        rw [normalize_GC_filter]
        exact Bool.not_eq_true _ |>.mp hgcf
      have hminmax : args.minGC = 0 ∧ args.maxGC = 1 := by
        by_contra hx
        have := hgc.mpr hx
        rw [this] at hgcf
        exact hgcf rfl
      have hcond : (((normalize args).quality : Real) < aq ∧
          minlen (normalize args) < (r.seq.length : Int) ∧
          ((normalize args).minGC ≤ (1 / 2 : Rat) ∧ (1 / 2 : Rat) ≤ (normalize args).maxGC)) ↔
          accept_spec args r := by
        rw [normalize_quality, normalize_minGC, normalize_maxGC, minlen_normalize]
        unfold accept_spec
        constructor
        · rintro ⟨h1, h2, -⟩
          exact ⟨⟨aq, haq, h1⟩, h2, fun hx => absurd hminmax hx⟩
        · rintro ⟨⟨a, ha, h1⟩, h2, -⟩
          rw [haq] at ha
          cases ha
          refine ⟨h1, h2, ?_, ?_⟩
          · rw [hminmax.1]; norm_num
          · rw [hminmax.2]; norm_num
      simp only [filter_stream, hgcn, Bool.false_eq_true, if_false, haq, filterP]
      by_cases hP : accept_spec args r
      · rw [if_pos (hcond.mpr hP), if_pos hP, ih']
        simp
      · rw [if_neg (fun hc => hP (hcond.mp hc)), if_neg hP, ih']

/-- Witness for C1 at a concrete configuration and stream. -/
theorem stream_filter_acceptance_witness :
    ((Config.mk 1 0 0 1 none none false).GC_filter = true ↔
      ¬((Config.mk 1 0 0 1 none none false).minGC = 0 ∧
        (Config.mk 1 0 0 1 none none false).maxGC = 1)) ∧
    (∀ r ∈ [Rec.mk "r1" ['A', 'C'] [30, 30]], r.seq ≠ [] ∧ r.quals ≠ []) ∧
    filter_stream (normalize (Config.mk 1 0 0 1 none none false))
        [Rec.mk "r1" ['A', 'C'] [30, 30]] =
      ((filterP (accept_spec (Config.mk 1 0 0 1 none none false))
          [Rec.mk "r1" ['A', 'C'] [30, 30]]).map
        (trim (normalize (Config.mk 1 0 0 1 none none false))), none) :=
  ⟨by decide, by decide, stream_filter_acceptance _ _ (by decide) (by decide)⟩

theorem filter_using_summary_config (data : String → Option Real) (args : Config)
    (a b : Rat) (c : Bool) (recs : List Rec) :
    filter_using_summary data
        { args with minGC := a, maxGC := b, GC_filter := c } recs =
      filter_using_summary data args recs := by
  induction recs with
  | nil => simp [filter_using_summary]
  | cons r rs ih =>
    simp only [filter_using_summary, ih]
    rfl

theorem filter_using_summary_all_found (data : String → Option Real) (args : Config)
    (recs : List Rec) (hall : ∀ r ∈ recs, (data r.id).isSome = true) :
    filter_using_summary data args recs =
      ((filterP (accept_summary_spec data args) recs).map (trim args), none) := by
  induction recs with
  | nil => simp [filter_using_summary, filterP]
  | cons r rs ih =>
    have ih' := ih (fun s hs => hall s (List.mem_cons_of_mem r hs))
    obtain ⟨q, hq⟩ := Option.isSome_iff_exists.mp (hall r (List.mem_cons_self r rs))
    have hcond : ((args.quality : Real) < q ∧ args.length < (r.seq.length : Int)) ↔
        accept_summary_spec data args r := by
      unfold accept_summary_spec
      constructor
      · rintro ⟨h1, h2⟩
        exact ⟨q, hq, h1, h2⟩
      · rintro ⟨q', hq', h1, h2⟩
        rw [hq] at hq'
        cases hq'
        exact ⟨h1, h2⟩
    simp only [filter_using_summary, hq, filterP]
    by_cases hP : accept_summary_spec data args r
    · rw [if_pos (hcond.mpr hP), if_pos hP, ih']
      simp
    · rw [if_neg (fun hc => hP (hcond.mp hc)), if_neg hP, ih']

/-- C2: Summary-Joined Filter acceptance condition.  When every stream
identifier is present in the summary index, `filter_using_summary` runs
to completion and emits exactly the records whose looked-up quality is
strictly greater than the minimum quality and whose pre-trim length is
strictly greater than the configured minimum length (crop lengths are not
folded into the threshold), each trimmed by `[headcrop:tailcrop]`;
moreover the result is independent of the GC configuration — no GC
predicate is evaluated on this path. -/
theorem summary_filter_acceptance (data : String → Option Real) (args : Config)
    (recs : List Rec) (hall : ∀ r ∈ recs, (data r.id).isSome = true) :
    filter_using_summary data args recs =
      ((filterP (accept_summary_spec data args) recs).map (trim args), none) ∧
    ∀ a b c, filter_using_summary data
        { args with minGC := a, maxGC := b, GC_filter := c } recs =
      filter_using_summary data args recs :=
  ⟨filter_using_summary_all_found data args recs hall,
   fun a b c => filter_using_summary_config data args a b c recs⟩

/-- Witness for C2 at a concrete index, configuration and stream. -/
theorem summary_filter_acceptance_witness :
    (∀ r ∈ [Rec.mk "r1" ['A', 'C'] [30, 30]],
      ((fun _ : String => some (20 : Real)) r.id).isSome = true) ∧
    (filter_using_summary (fun _ => some (20 : Real)) (Config.mk 1 0 0 1 none none false)
        [Rec.mk "r1" ['A', 'C'] [30, 30]] =
      ((filterP (accept_summary_spec (fun _ => some (20 : Real))
          (Config.mk 1 0 0 1 none none false))
          [Rec.mk "r1" ['A', 'C'] [30, 30]]).map
        (trim (Config.mk 1 0 0 1 none none false)), none) ∧
    ∀ a b c, filter_using_summary (fun _ => some (20 : Real))
        { Config.mk 1 0 0 1 none none false with minGC := a, maxGC := b, GC_filter := c }
        [Rec.mk "r1" ['A', 'C'] [30, 30]] =
      filter_using_summary (fun _ => some (20 : Real)) (Config.mk 1 0 0 1 none none false)
        [Rec.mk "r1" ['A', 'C'] [30, 30]]) :=
  ⟨(fun _ _ => rfl),
   summary_filter_acceptance _ _ _ (fun _ _ => rfl)⟩

/-- C3: identifier mismatch is fatal.  If the stream splits as
`pre ++ bad :: post` where every identifier in `pre` is present in the
summary index and `bad`'s identifier is absent, then the Summary-Joined
Filter halts at `bad` reporting its identifier: the emitted output is
exactly the accepted records of `pre` (records accepted before the
failure point), and nothing of `bad` or `post` is emitted. -/
theorem summary_filter_mismatch (data : String → Option Real) (args : Config)
    (pre post : List Rec) (bad : Rec)
    (hpre : ∀ r ∈ pre, (data r.id).isSome = true)
    (hbad : data bad.id = none) :
    filter_using_summary data args (pre ++ bad :: post) =
      ((filterP (accept_summary_spec data args) pre).map (trim args), some bad.id) := by
  induction pre with
  | nil => simp [filter_using_summary, hbad, filterP]
  | cons r rs ih =>
    have ih' := ih (fun s hs => hpre s (List.mem_cons_of_mem r hs))
    obtain ⟨q, hq⟩ := Option.isSome_iff_exists.mp (hpre r (List.mem_cons_self r rs))
    have hcond : ((args.quality : Real) < q ∧ args.length < (r.seq.length : Int)) ↔
        accept_summary_spec data args r := by
      unfold accept_summary_spec
      constructor
      · rintro ⟨h1, h2⟩
        exact ⟨q, hq, h1, h2⟩
      · rintro ⟨q', hq', h1, h2⟩
        rw [hq] at hq'
        cases hq'
        exact ⟨h1, h2⟩
    simp only [List.cons_append, filter_using_summary, hq, filterP]
    simp only [List.append_eq] at ih' ⊢
    by_cases hP : accept_summary_spec data args r
    · rw [if_pos (hcond.mpr hP), if_pos hP, ih']
      simp
    · rw [if_neg (fun hc => hP (hcond.mp hc)), if_neg hP, ih']

/-- Witness for C3: a one-record stream whose identifier is missing from
the summary index. -/
theorem summary_filter_mismatch_witness :
    (∀ r ∈ ([] : List Rec), ((fun _ : String => (none : Option Real)) r.id).isSome = true) ∧
    (fun _ : String => (none : Option Real)) (Rec.mk "rX" ['A'] [7]).id = none ∧
    filter_using_summary (fun _ => none) (Config.mk 1 0 0 1 none none false)
        ([] ++ Rec.mk "rX" ['A'] [7] :: []) =
      ((filterP (accept_summary_spec (fun _ => none) (Config.mk 1 0 0 1 none none false))
          []).map (trim (Config.mk 1 0 0 1 none none false)), some (Rec.mk "rX" ['A'] [7]).id) :=
  ⟨(fun _ hr => nomatch hr), rfl,
   summary_filter_mismatch _ _ [] [] _ (fun _ hr => nomatch hr) rfl⟩

/-- The arithmetic mean of the per-score error probabilities. -/
noncomputable def meanErrProb (quals : List Nat) : Real :=
  (quals.map errProb).sum / quals.length

theorem errProb_pos (q : Nat) : 0 < errProb q :=
  Real.rpow_pos_of_pos (by norm_num) _

theorem meanErrProb_pos (quals : List Nat) (h : quals ≠ []) : 0 < meanErrProb quals := by
  unfold meanErrProb
  apply div_pos
  · rcases quals with _ | ⟨a, l⟩
    · exact absurd rfl h
    · have hnn : 0 ≤ (l.map errProb).sum :=
        List.sum_nonneg (by
          intro x hx
          obtain ⟨q, -, hq⟩ := List.mem_map.mp hx
          exact hq ▸ (errProb_pos q).le)
      simp only [List.map_cons, List.sum_cons]
      have := errProb_pos a
      linarith
  · rcases quals with _ | ⟨a, l⟩
    · exact absurd rfl h
    · simp
      positivity

theorem ave_qual_eq (quals : List Nat) (h : quals ≠ []) :
    ave_qual quals = some (-10 * Real.logb 10 (meanErrProb quals)) := by
  unfold ave_qual meanErrProb errProb
  rw [if_neg h]

/-- C4: quality aggregation uses error-probability averaging.  For every
non-empty list of Phred scores the aggregate `a` satisfies
`10 ^ (-a/10) = mean of the per-score error probabilities` (i.e. `a` is
the inverse Phred transform of the arithmetic mean of the probabilities,
not of the scores), and for the scores `[10, 10, 40]` the aggregate is
strictly closer to 13 than to the arithmetic mean 20. -/
theorem ave_qual_error_probability_averaging :
    (∀ quals : List Nat, quals ≠ [] →
      ∃ a, ave_qual quals = some a ∧ (10 : Real) ^ (-a / 10) = meanErrProb quals) ∧
    (∃ a, ave_qual [10, 10, 40] = some a ∧ |a - 13| < |a - 20|) := by
  have key : ∀ quals : List Nat, quals ≠ [] →
      (10 : Real) ^ (-(-10 * Real.logb 10 (meanErrProb quals)) / 10) = meanErrProb quals := by
    intro quals h
    rw [show (-(-10 * Real.logb 10 (meanErrProb quals)) / 10) = Real.logb 10 (meanErrProb quals) by ring]
    exact Real.rpow_logb (by norm_num) (by norm_num) (meanErrProb_pos quals h)
  constructor
  · intro quals h
    exact ⟨-10 * Real.logb 10 (meanErrProb quals), ave_qual_eq quals h, key quals h⟩
  · have e10 : errProb 10 = 1 / 10 := by
      unfold errProb
      rw [show (-((10 : Nat) : Real) / 10) = (((-1 : Int)) : Real) by norm_num, Real.rpow_intCast]
      norm_num
    have e40 : errProb 40 = 1 / 10000 := by
      unfold errProb
      rw [show (-((40 : Nat) : Real) / 10) = (((-4 : Int)) : Real) by norm_num, Real.rpow_intCast]
      norm_num
    have hm : meanErrProb [10, 10, 40] = 667 / 10000 := by
      unfold meanErrProb
      simp only [List.map_cons, List.map_nil, List.sum_cons, List.sum_nil, List.length_cons,
        List.length_nil, e10, e40]
      norm_num
    refine ⟨-10 * Real.logb 10 (meanErrProb [10, 10, 40]), ave_qual_eq _ (by simp), ?_⟩
    have hkey : (10 : Real) ^ ((-33 / 20 : Real)) < 667 / 10000 := by
      apply lt_of_pow_lt_pow_left₀ 20 (by norm_num)
      rw [← Real.rpow_natCast ((10 : Real) ^ ((-33 / 20 : Real))) 20, ← Real.rpow_mul (by norm_num)]
      rw [show ((-33 / 20 : Real) * (20 : Nat)) = (((-33 : Int)) : Real) by push_cast; ring,
        Real.rpow_intCast]
      norm_num
    have hlogb : (-33 / 20 : Real) < Real.logb 10 (meanErrProb [10, 10, 40]) := by
      apply (Real.rpow_lt_rpow_left_iff (by norm_num : (1 : Real) < 10)).mp
      rw [Real.rpow_logb (by norm_num) (by norm_num) (meanErrProb_pos _ (by simp)), hm]
      exact hkey
    set a := -10 * Real.logb 10 (meanErrProb [10, 10, 40]) with ha
    have h165 : a < 33 / 2 := by
      rw [ha]
      nlinarith
    have h20 : a < 20 := lt_trans h165 (by norm_num)
    have habs : |a - 20| = -(a - 20) := abs_of_neg (by linarith)
    rw [habs, abs_lt]
    constructor
    · linarith
    · linarith

/-- Witness for C4's universally quantified conjunct at the concrete
score list `[10, 10, 40]`. -/
theorem ave_qual_error_probability_averaging_witness :
    ([10, 10, 40] ≠ ([] : List Nat)) ∧
    ∃ a, ave_qual [10, 10, 40] = some a ∧
      (10 : Real) ^ (-a / 10) = meanErrProb [10, 10, 40] :=
  ⟨by decide, ave_qual_error_probability_averaging.1 [10, 10, 40] (by decide)⟩

theorem count_upper_GC (s : List Char) :
    (s.map Char.toUpper).count 'C' + (s.map Char.toUpper).count 'G' =
      s.countP (fun c => c.toUpper == 'G' || c.toUpper == 'C') := by
  induction s with
  | nil => rfl
  | cons c cs ih =>
    simp only [List.map_cons, List.count_cons, List.countP_cons, beq_iff_eq,
      Bool.or_eq_true]
    by_cases hC : c.toUpper = 'C' <;> by_cases hG : c.toUpper = 'G'
    · rw [hC] at hG
      exact absurd hG (by decide)
    · simp only [hC, hG, if_pos, if_neg, if_true, if_false]
      simp [hC, hG]
      omega
    · simp [hC, hG]
      omega
    · simp [hC, hG]
      omega

/-- C6: the composition metric.  For every non-empty symbol sequence the
GC fraction equals the number of symbols whose upper-case form is `G` or
`C`, divided by the total length; in particular it is 1 for `"GGCC"`, 0
for `"ATAT"` and 1/2 for `"ATGC"`. -/
theorem gc_content_fraction :
    (∀ s : List Char, s ≠ [] →
      gc_content s =
        some (((s.countP (fun c => c.toUpper == 'G' || c.toUpper == 'C') : Nat) : Rat) /
          ((s.length : Nat) : Rat))) ∧
    gc_content ['G', 'G', 'C', 'C'] = some 1 ∧
    gc_content ['A', 'T', 'A', 'T'] = some 0 ∧
    gc_content ['A', 'T', 'G', 'C'] = some (1 / 2) := by
  refine ⟨?_, ?_, ?_, ?_⟩
  · intro s h
    have hlen : s.length ≠ 0 := fun hh => h (List.length_eq_zero.mp hh)
    unfold gc_content
    rw [if_neg hlen, count_upper_GC]
  · have h1 : ((['G', 'G', 'C', 'C'].map Char.toUpper).count 'C') = 2 := by decide
    have h2 : ((['G', 'G', 'C', 'C'].map Char.toUpper).count 'G') = 2 := by decide
    unfold gc_content
    rw [if_neg (by decide : ¬(['G', 'G', 'C', 'C'].length = 0)), h1, h2]
    simp only [Option.some.injEq]
    norm_num
  · have h1 : ((['A', 'T', 'A', 'T'].map Char.toUpper).count 'C') = 0 := by decide
    have h2 : ((['A', 'T', 'A', 'T'].map Char.toUpper).count 'G') = 0 := by decide
    unfold gc_content
    rw [if_neg (by decide : ¬(['A', 'T', 'A', 'T'].length = 0)), h1, h2]
    simp only [Option.some.injEq]
    norm_num
  · have h1 : ((['A', 'T', 'G', 'C'].map Char.toUpper).count 'C') = 1 := by decide
    have h2 : ((['A', 'T', 'G', 'C'].map Char.toUpper).count 'G') = 1 := by decide
    unfold gc_content
    rw [if_neg (by decide : ¬(['A', 'T', 'G', 'C'].length = 0)), h1, h2]
    simp only [Option.some.injEq]
    norm_num

/-- Witness for C6's universally quantified conjunct at `['G', 'T']`. -/
theorem gc_content_fraction_witness :
    (['G', 'T'] ≠ ([] : List Char)) ∧
    gc_content ['G', 'T'] =
      some (((['G', 'T'].countP (fun c => c.toUpper == 'G' || c.toUpper == 'C') : Nat) : Rat) /
        (((['G', 'T'].length : Nat)) : Rat)) :=
  ⟨by decide, gc_content_fraction.1 ['G', 'T'] (by decide)⟩

/-- C7 counterexample: the division-by-zero branch of the GC computation
is reachable.  With GC filtering configured, a zero-length record in the
stream makes `filter_stream` invoke the composition metric on it and
abort with the domain error — the empty record is not guarded upstream of
the metric. -/
theorem gc_guard_counterexample :
    filter_stream (Config.mk 1 0 (2 / 5) (3 / 5) none none true) [Rec.mk "e" [] []] =
      ([], some StreamErr.zeroDiv) := by
  simp [filter_stream, gc_content]

/-- C7 amended: the composition metric fails with a domain error exactly
on zero-length input; the Stream Filter invokes it even on a zero-length
record whenever GC filtering is configured (the metric is computed before
the length check, so the error is reachable there), and the
division-by-zero branch is unreachable only when GC filtering is not
configured. -/
theorem gc_zero_length_reachability (args args2 : Config) (r : Rec)
    (recs recs2 : List Rec)
    (hgcf : args.GC_filter = true) (hseq : r.seq = [])
    (hgcf2 : args2.GC_filter = false) :
    (∀ s : List Char, gc_content s = none ↔ s = []) ∧
    filter_stream args (r :: recs) = ([], some StreamErr.zeroDiv) ∧
    (filter_stream args2 recs2).2 ≠ some StreamErr.zeroDiv := by
  refine ⟨?_, ?_, ?_⟩
  · intro s
    constructor
    · intro h
      by_contra hne
      have hl : s.length ≠ 0 := fun hh => hne (List.length_eq_zero.mp hh)
      unfold gc_content at h
      rw [if_neg hl] at h
      cases h
    · intro h
      subst h
      rfl
  · simp [filter_stream, hgcf, hseq, gc_content]
  · induction recs2 with
    | nil => simp [filter_stream]
    | cons r2 rs2 ih =>
      simp only [filter_stream, hgcf2, Bool.false_eq_true, if_false]
      cases haq : ave_qual r2.quals with
      | none => simp
      | some aq =>
        simp only [haq]
        by_cases hc : ((args2.quality : Real) < aq ∧ minlen args2 < (r2.seq.length : Int) ∧
            (args2.minGC ≤ (1 / 2 : Rat) ∧ (1 / 2 : Rat) ≤ args2.maxGC))
        · rw [if_pos hc]
          exact ih
        · rw [if_neg hc]
          exact ih

/-- Witness for C7's amended theorem at concrete configurations, a
concrete empty record and concrete streams. -/
theorem gc_zero_length_reachability_witness :
    ((Config.mk 1 0 (2 / 5) (3 / 5) none none true).GC_filter = true) ∧
    ((Rec.mk "e" [] []).seq = []) ∧
    ((Config.mk 1 0 0 1 none none false).GC_filter = false) ∧
    ((∀ s : List Char, gc_content s = none ↔ s = []) ∧
      filter_stream (Config.mk 1 0 (2 / 5) (3 / 5) none none true)
          (Rec.mk "e" [] [] :: [Rec.mk "a" ['A'] [9]]) = ([], some StreamErr.zeroDiv) ∧
      (filter_stream (Config.mk 1 0 0 1 none none false) [Rec.mk "a" ['A'] [9]]).2 ≠
        some StreamErr.zeroDiv) :=
  ⟨rfl, rfl, rfl,
   gc_zero_length_reachability _ _ _ [Rec.mk "a" ['A'] [9]] [Rec.mk "a" ['A'] [9]] rfl rfl rfl⟩

theorem filter_stream_count_mono (a1 a2 : Config) (recs : List Rec)
    (hgcf : a2.GC_filter = a1.GC_filter) (hmin : a2.minGC = a1.minGC)
    (hmax : a2.maxGC = a1.maxGC)
    (hq : a1.quality ≤ a2.quality) (hml : minlen a1 ≤ minlen a2) :
    ((filter_stream a2 recs).1).length ≤ ((filter_stream a1 recs).1).length := by
  induction recs with
  | nil => simp [filter_stream]
  | cons r rs ih =>
    simp only [filter_stream, hgcf, hmin, hmax]
    cases hgc : (if a1.GC_filter then gc_content r.seq else some (1 / 2 : Rat)) with
    | none => simp
    | some g =>
      cases haq : ave_qual r.quals with
      | none => simp
      | some aq =>
        simp only [haq]
        by_cases hc2 : ((a2.quality : Real) < aq ∧ minlen a2 < (r.seq.length : Int) ∧
            (a1.minGC ≤ g ∧ g ≤ a1.maxGC))
        · have hc1 : ((a1.quality : Real) < aq ∧ minlen a1 < (r.seq.length : Int) ∧
              (a1.minGC ≤ g ∧ g ≤ a1.maxGC)) := by
            obtain ⟨h1, h2, h3⟩ := hc2
            exact ⟨lt_of_le_of_lt (by exact_mod_cast hq) h1, lt_of_le_of_lt hml h2, h3⟩
          rw [if_pos hc2, if_pos hc1]
          simpa using ih
        · rw [if_neg hc2]
          by_cases hc1 : ((a1.quality : Real) < aq ∧ minlen a1 < (r.seq.length : Int) ∧
              (a1.minGC ≤ g ∧ g ≤ a1.maxGC))
          · rw [if_pos hc1]
            simp only [List.length_cons]
            exact le_trans ih (Nat.le_succ _)
          · rw [if_neg hc1]
            exact ih

/-- C8: filter monotonicity.  For a fixed input stream, raising the
minimum quality threshold never increases the number of records
`filter_stream` accepts, and likewise for raising the minimum length. -/
theorem filter_thresholds_monotone (args : Config) (recs : List Rec) (q2 L2 : Int)
    (hq : args.quality ≤ q2) (hL : args.length ≤ L2) :
    ((filter_stream { args with quality := q2 } recs).1).length ≤
      ((filter_stream args recs).1).length ∧
    ((filter_stream { args with length := L2 } recs).1).length ≤
      ((filter_stream args recs).1).length := by
  constructor
  · exact filter_stream_count_mono args { args with quality := q2 } recs rfl rfl rfl hq
      (le_of_eq rfl)
  · refine filter_stream_count_mono args { args with length := L2 } recs rfl rfl rfl
      (le_of_eq rfl) ?_
    unfold minlen
    simp only
    omega

/-- Witness for C8 at a concrete configuration, stream and pair of raised
thresholds. -/
theorem filter_thresholds_monotone_witness :
    ((Config.mk 1 0 0 1 none none false).quality ≤ 5) ∧
    ((Config.mk 1 0 0 1 none none false).length ≤ 7) ∧
    (((filter_stream { Config.mk 1 0 0 1 none none false with quality := 5 }
        [Rec.mk "r1" ['A', 'C'] [30, 30]]).1).length ≤
      ((filter_stream (Config.mk 1 0 0 1 none none false)
        [Rec.mk "r1" ['A', 'C'] [30, 30]]).1).length ∧
    ((filter_stream { Config.mk 1 0 0 1 none none false with length := 7 }
        [Rec.mk "r1" ['A', 'C'] [30, 30]]).1).length ≤
      ((filter_stream (Config.mk 1 0 0 1 none none false)
        [Rec.mk "r1" ['A', 'C'] [30, 30]]).1).length) :=
  ⟨by decide, by decide,
   filter_thresholds_monotone (Config.mk 1 0 0 1 none none false)
     [Rec.mk "r1" ['A', 'C'] [30, 30]] 5 7 (by decide) (by decide)⟩

theorem filter_stream_sublist (args : Config) (recs : List Rec) :
    ((filter_stream args recs).1.map Rec.id).Sublist (recs.map Rec.id) := by
  induction recs with
  | nil => simp [filter_stream]
  | cons r rs ih =>
    simp only [filter_stream, List.map_cons]
    cases hgc : (if args.GC_filter then gc_content r.seq else some (1 / 2 : Rat)) with
    | none => simp
    | some g =>
      cases haq : ave_qual r.quals with
      | none => simp
      | some aq =>
        simp only [haq]
        by_cases hc : ((args.quality : Real) < aq ∧ minlen args < (r.seq.length : Int) ∧
            (args.minGC ≤ g ∧ g ≤ args.maxGC))
        · rw [if_pos hc]
          simp only [List.map_cons, trim_id]
          exact ih.cons₂ r.id
        · rw [if_neg hc]
          exact ih.cons r.id

theorem filter_using_summary_sublist (data : String → Option Real) (args : Config)
    (recs : List Rec) :
    ((filter_using_summary data args recs).1.map Rec.id).Sublist (recs.map Rec.id) := by
  induction recs with
  | nil => simp [filter_using_summary]
  | cons r rs ih =>
    simp only [filter_using_summary, List.map_cons]
    cases hd : data r.id with
    | none => simp
    | some q =>
      simp only []
      by_cases hc : ((args.quality : Real) < q ∧ args.length < (r.seq.length : Int))
      · rw [if_pos hc]
        simp only [List.map_cons, trim_id]
        exact ih.cons₂ r.id
      · rw [if_neg hc]
        exact ih.cons r.id

theorem filter_stream_append (args : Config) (xs ys : List Rec)
    (hxs : (filter_stream args xs).2 = none) :
    filter_stream args (xs ++ ys) =
      ((filter_stream args xs).1 ++ (filter_stream args ys).1,
        (filter_stream args ys).2) := by
  induction xs with
  | nil => simp [filter_stream]
  | cons r rs ih =>
    simp only [filter_stream, List.cons_append] at hxs ⊢
    cases hgc : (if args.GC_filter then gc_content r.seq else some (1 / 2 : Rat)) with
    | none =>
      rw [hgc] at hxs
      cases hxs
    | some g =>
      rw [hgc] at hxs
      cases haq : ave_qual r.quals with
      | none =>
        rw [haq] at hxs
        cases hxs
      | some aq =>
        rw [haq] at hxs
        simp only [] at hxs
        simp only [haq]
        by_cases hc : ((args.quality : Real) < aq ∧ minlen args < (r.seq.length : Int) ∧
            (args.minGC ≤ g ∧ g ≤ args.maxGC))
        · rw [if_pos hc] at hxs
          simp only [if_pos hc]
          rw [List.append_eq, ih hxs]
          simp
        · rw [if_neg hc] at hxs
          simp only [if_neg hc]
          rw [List.append_eq, ih hxs]

theorem filter_using_summary_append (data : String → Option Real) (args : Config)
    (xs ys : List Rec)
    (hxs : (filter_using_summary data args xs).2 = none) :
    filter_using_summary data args (xs ++ ys) =
      ((filter_using_summary data args xs).1 ++ (filter_using_summary data args ys).1,
        (filter_using_summary data args ys).2) := by
  induction xs with
  | nil => simp [filter_using_summary]
  | cons r rs ih =>
    simp only [filter_using_summary, List.cons_append] at hxs ⊢
    cases hd : data r.id with
    | none =>
      rw [hd] at hxs
      cases hxs
    | some q =>
      rw [hd] at hxs
      simp only [] at hxs ⊢
      by_cases hc : ((args.quality : Real) < q ∧ args.length < (r.seq.length : Int))
      · rw [if_pos hc] at hxs
        simp only [if_pos hc]
        rw [List.append_eq, ih hxs]
        simp
      · rw [if_neg hc] at hxs
        simp only [if_neg hc]
        rw [List.append_eq, ih hxs]

/-- C9: order preservation and statelessness.  On both filter paths the
emitted identifiers form a subsequence of the input identifiers in the
same relative order, and (statelessness) an error-free prefix of the
stream contributes the same output regardless of what follows it: the
output for `xs ++ ys` is the output for `xs` followed by the output for
`ys`, so each accept/reject decision depends only on the record itself
and the configuration. -/
theorem filter_order_stateless (args : Config) (data : String → Option Real)
    (recs xs ys : List Rec)
    (hxs : (filter_stream args xs).2 = none)
    (hxs2 : (filter_using_summary data args xs).2 = none) :
    ((filter_stream args recs).1.map Rec.id).Sublist (recs.map Rec.id) ∧
    ((filter_using_summary data args recs).1.map Rec.id).Sublist (recs.map Rec.id) ∧
    filter_stream args (xs ++ ys) =
      ((filter_stream args xs).1 ++ (filter_stream args ys).1,
        (filter_stream args ys).2) ∧
    filter_using_summary data args (xs ++ ys) =
      ((filter_using_summary data args xs).1 ++ (filter_using_summary data args ys).1,
        (filter_using_summary data args ys).2) :=
  ⟨filter_stream_sublist args recs, filter_using_summary_sublist data args recs,
   filter_stream_append args xs ys hxs, filter_using_summary_append data args xs ys hxs2⟩

/-- Witness for C9 at a concrete configuration, summary index and
streams. -/
theorem filter_order_stateless_witness :
    ((filter_stream (Config.mk 1 0 0 1 none none false) []).2 = none) ∧
    ((filter_using_summary (fun _ => some (20 : Real)) (Config.mk 1 0 0 1 none none false)
        []).2 = none) ∧
    (((filter_stream (Config.mk 1 0 0 1 none none false)
        [Rec.mk "r1" ['A', 'C'] [30, 30], Rec.mk "r2" ['G'] [3]]).1.map Rec.id).Sublist
      ([Rec.mk "r1" ['A', 'C'] [30, 30], Rec.mk "r2" ['G'] [3]].map Rec.id) ∧
    ((filter_using_summary (fun _ => some (20 : Real)) (Config.mk 1 0 0 1 none none false)
        [Rec.mk "r1" ['A', 'C'] [30, 30], Rec.mk "r2" ['G'] [3]]).1.map Rec.id).Sublist
      ([Rec.mk "r1" ['A', 'C'] [30, 30], Rec.mk "r2" ['G'] [3]].map Rec.id) ∧
    filter_stream (Config.mk 1 0 0 1 none none false)
        ([] ++ [Rec.mk "r2" ['G'] [3]]) =
      ((filter_stream (Config.mk 1 0 0 1 none none false) []).1 ++
        (filter_stream (Config.mk 1 0 0 1 none none false) [Rec.mk "r2" ['G'] [3]]).1,
        (filter_stream (Config.mk 1 0 0 1 none none false) [Rec.mk "r2" ['G'] [3]]).2) ∧
    filter_using_summary (fun _ => some (20 : Real)) (Config.mk 1 0 0 1 none none false)
        ([] ++ [Rec.mk "r2" ['G'] [3]]) =
      ((filter_using_summary (fun _ => some (20 : Real)) (Config.mk 1 0 0 1 none none false)
          []).1 ++
        (filter_using_summary (fun _ => some (20 : Real)) (Config.mk 1 0 0 1 none none false)
          [Rec.mk "r2" ['G'] [3]]).1,
        (filter_using_summary (fun _ => some (20 : Real)) (Config.mk 1 0 0 1 none none false)
          [Rec.mk "r2" ['G'] [3]]).2)) :=
  ⟨by simp [filter_stream], by simp [filter_using_summary],
   filter_order_stateless (Config.mk 1 0 0 1 none none false) (fun _ => some (20 : Real))
     [Rec.mk "r1" ['A', 'C'] [30, 30], Rec.mk "r2" ['G'] [3]] [] [Rec.mk "r2" ['G'] [3]]
     (by simp [filter_stream]) (by simp [filter_using_summary])⟩

/-- A quality aggregate over a constant score list is that score. -/
theorem ave_qual_replicate (n s : Nat) (h : n ≠ 0) :
    ave_qual (List.replicate n s) = some ((s : Nat) : Real) := by
  have hne : List.replicate n s ≠ [] := fun hh =>
    h (by simpa using congrArg List.length hh)
  rw [ave_qual_eq _ hne]
  have hm : meanErrProb (List.replicate n s) = errProb s := by
    unfold meanErrProb
    rw [List.map_replicate, List.sum_replicate, List.length_replicate, nsmul_eq_mul]
    exact mul_div_cancel_left₀ _ (Nat.cast_ne_zero.mpr h)
  rw [hm]
  unfold errProb
  rw [Real.logb_rpow (by norm_num) (by norm_num)]
  simp only [Option.some.injEq]
  ring

/-- Slicing with a stop bound of exactly 0 yields the empty list. -/
theorem pyslice_stop_zero {α : Type} (l : List α) (hc : Option Int) :
    pyslice l hc (some 0) = [] := by
  unfold pyslice
  simp only [if_neg (lt_irrefl (0 : Int))]
  have he : (min (0 : Int) (l.length : Int)).toNat = 0 := by omega
  rw [he]
  simp

/-- Slicing with an absent stop bound keeps everything from a valid start
onward. -/
theorem pyslice_stop_none {α : Type} (l : List α) (h : Int) (hh : 0 ≤ h) :
    pyslice l (some h) none = l.drop h.toNat := by
  unfold pyslice
  simp only []
  rw [if_neg (not_lt.mpr hh)]
  have hn : ((l.length : Int)).toNat = l.length := by omega
  rw [hn, List.take_length]
  rcases le_or_lt h (l.length : Int) with hle | hlt
  · rw [min_eq_left hle]
  · rw [min_eq_right hlt.le, hn, List.drop_length]
    symm
    exact List.drop_eq_nil_of_le (by omega)

/-- Every record emitted by the stream filter is the trim of an input
record. -/
theorem filter_stream_emitted_trim (args : Config) (recs : List Rec) (s : Rec)
    (hs : s ∈ (filter_stream args recs).1) : ∃ r ∈ recs, s = trim args r := by
  induction recs with
  | nil => simp [filter_stream] at hs
  | cons r rs ih =>
    simp only [filter_stream] at hs
    cases hgc : (if args.GC_filter then gc_content r.seq else some (1 / 2 : Rat)) with
    | none =>
      rw [hgc] at hs
      simp at hs
    | some g =>
      rw [hgc] at hs
      cases haq : ave_qual r.quals with
      | none =>
        rw [haq] at hs
        simp at hs
      | some aq =>
        rw [haq] at hs
        simp only [] at hs
        by_cases hc : ((args.quality : Real) < aq ∧ minlen args < (r.seq.length : Int) ∧
            (args.minGC ≤ g ∧ g ≤ args.maxGC))
        · rw [if_pos hc] at hs
          rcases List.mem_cons.mp hs with hh | hh
          · exact ⟨r, List.mem_cons_self r rs, hh⟩
          · obtain ⟨r2, hr2, he⟩ := ih hh
            exact ⟨r2, List.mem_cons_of_mem r hr2, he⟩
        · rw [if_neg hc] at hs
          obtain ⟨r2, hr2, he⟩ := ih hs
          exact ⟨r2, List.mem_cons_of_mem r hr2, he⟩

/-- Every record emitted by the summary-joined filter is the trim of an
input record. -/
theorem filter_summary_emitted_trim (data : String → Option Real) (args : Config)
    (recs : List Rec) (s : Rec)
    (hs : s ∈ (filter_using_summary data args recs).1) : ∃ r ∈ recs, s = trim args r := by
  induction recs with
  | nil => simp [filter_using_summary] at hs
  | cons r rs ih =>
    simp only [filter_using_summary] at hs
    cases hd : data r.id with
    | none =>
      rw [hd] at hs
      simp at hs
    | some q =>
      rw [hd] at hs
      simp only [] at hs
      by_cases hc : ((args.quality : Real) < q ∧ args.length < (r.seq.length : Int))
      · rw [if_pos hc] at hs
        rcases List.mem_cons.mp hs with hh | hh
        · exact ⟨r, List.mem_cons_self r rs, hh⟩
        · obtain ⟨r2, hr2, he⟩ := ih hh
          exact ⟨r2, List.mem_cons_of_mem r hr2, he⟩
      · rw [if_neg hc] at hs
        obtain ⟨r2, hr2, he⟩ := ih hs
        exact ⟨r2, List.mem_cons_of_mem r hr2, he⟩

/-- With a valid non-negative head crop and an absent-or-strictly-positive
tail crop that has been negated into the stop bound, Python slicing
yields exactly the index range `[head, length - tail)`. -/
theorem pyslice_spec {α : Type} (l : List α) (hc tc : Option Int)
    (hh : ∀ x, hc = some x → 0 ≤ x) (ht : ∀ x, tc = some x → 0 < x)
    (hfit : hc.getD 0 + tc.getD 0 < (l.length : Int)) :
    pyslice l hc (tc.map (fun t => -t)) =
      (l.drop (hc.getD 0).toNat).take
        (l.length - (hc.getD 0).toNat - (tc.getD 0).toNat) := by
  have hn : ((l.length : Int)).toNat = l.length := by omega
  rcases hc with _ | h <;> rcases tc with _ | t
  · unfold pyslice
    simp only [Option.map_none', Option.getD_none]
    rw [hn, List.take_length, Int.toNat_zero, List.drop_zero]
    symm
    exact List.take_of_length_le (by simp)
  · have htp : 0 < t := ht t rfl
    have htl : t < (l.length : Int) := by
      simpa using hfit
    unfold pyslice
    simp only [Option.map_some', Option.getD_none, Option.getD_some]
    rw [if_pos (by omega : -t < 0), Int.toNat_zero, List.drop_zero]
    rw [max_eq_left (by omega : (0 : Int) ≤ (l.length : Int) + -t)]
    congr 1
    omega
  · have hp : 0 ≤ h := hh h rfl
    have hl : h < (l.length : Int) := by
      simpa using hfit
    unfold pyslice
    simp only [Option.map_none', Option.getD_none, Option.getD_some]
    rw [hn, List.take_length, if_neg (not_lt.mpr hp), min_eq_left hl.le]
    symm
    exact List.take_of_length_le (by simp)
  · have hp : 0 ≤ h := hh h rfl
    have htp : 0 < t := ht t rfl
    have hl : h + t < (l.length : Int) := by
      simpa using hfit
    unfold pyslice
    simp only [Option.map_some', Option.getD_some]
    rw [if_pos (by omega : -t < 0), if_neg (not_lt.mpr hp)]
    rw [max_eq_left (by omega : (0 : Int) ≤ (l.length : Int) + -t)]
    rw [min_eq_left (by omega : h ≤ (l.length : Int))]
    rw [List.drop_take]
    congr 1
    omega

/-- After `main`'s normalization, an absent-or-strictly-positive tail
crop becomes its negation in the stop bound. -/
theorem normalize_tailcrop_map (args : Config)
    (ht : ∀ x, args.tailcrop = some x → 0 < x) :
    (normalize args).tailcrop = args.tailcrop.map (fun t => -t) := by
  rcases h : args.tailcrop with _ | t
  · rw [normalize_tailcrop_none args h]
    rfl
  · rw [normalize_tailcrop_some args t h, if_neg (ht t h).ne']
    rfl

/-- C5 (amended): trim invariant.  For a valid head crop (absent or
non-negative) and a tail crop that is absent or strictly positive (the
configured tail-crop value 0 is excluded: the truthiness guard of `main`
leaves it un-negated and the slice `[head:0]` empties the record), every
record long enough to be accepted by the stream filter is trimmed to the
index range `[head, length - tail)` of both its sequence and its quality
scores: the trimmed sequence length is `original - head - tail`, and the
trimmed quality list has the same length as the trimmed sequence. -/
theorem trim_invariant (args : Config) (r : Rec)
    (hh : ∀ x, args.headcrop = some x → 0 ≤ x)
    (ht : ∀ x, args.tailcrop = some x → 0 < x)
    (hql : r.quals.length = r.seq.length)
    (hL : 0 ≤ args.length)
    (hacc : args.length + args.headcrop.getD 0 + args.tailcrop.getD 0 <
      (r.seq.length : Int)) :
    ((trim (normalize args) r).seq.length : Int) =
      (r.seq.length : Int) - args.headcrop.getD 0 - args.tailcrop.getD 0 ∧
    (trim (normalize args) r).quals.length = (trim (normalize args) r).seq.length ∧
    (trim (normalize args) r).seq =
      (r.seq.drop (args.headcrop.getD 0).toNat).take
        (r.seq.length - (args.headcrop.getD 0).toNat - (args.tailcrop.getD 0).toNat) ∧
    (trim (normalize args) r).quals =
      (r.quals.drop (args.headcrop.getD 0).toNat).take
        (r.seq.length - (args.headcrop.getD 0).toNat - (args.tailcrop.getD 0).toNat) := by
  have h0 : 0 ≤ args.headcrop.getD 0 := by
    rcases hx : args.headcrop with _ | x
    · simp
    · simpa using hh x hx
  have t0 : 0 ≤ args.tailcrop.getD 0 := by
    rcases hx : args.tailcrop with _ | x
    · simp
    · simpa using (ht x hx).le
  have hfit : args.headcrop.getD 0 + args.tailcrop.getD 0 < (r.seq.length : Int) := by
    omega
  have hfitq : args.headcrop.getD 0 + args.tailcrop.getD 0 < (r.quals.length : Int) := by
    rw [hql]
    exact hfit
  have hseq : (trim (normalize args) r).seq =
      (r.seq.drop (args.headcrop.getD 0).toNat).take
        (r.seq.length - (args.headcrop.getD 0).toNat - (args.tailcrop.getD 0).toNat) := by
    show pyslice r.seq (normalize args).headcrop (normalize args).tailcrop = _
    rw [normalize_headcrop, normalize_tailcrop_map args ht]
    exact pyslice_spec r.seq args.headcrop args.tailcrop hh ht hfit
  have hquals : (trim (normalize args) r).quals =
      (r.quals.drop (args.headcrop.getD 0).toNat).take
        (r.seq.length - (args.headcrop.getD 0).toNat - (args.tailcrop.getD 0).toNat) := by
    show pyslice r.quals (normalize args).headcrop (normalize args).tailcrop = _
    rw [normalize_headcrop, normalize_tailcrop_map args ht]
    rw [pyslice_spec r.quals args.headcrop args.tailcrop hh ht hfitq, hql]
  refine ⟨?_, ?_, hseq, hquals⟩
  · rw [hseq]
    rw [List.length_take, List.length_drop]
    omega
  · rw [hseq, hquals]
    rw [List.length_take, List.length_drop, List.length_take, List.length_drop, hql]

/-- Witness for C5's amended theorem at a concrete configuration and
record. -/
theorem trim_invariant_witness :
    (∀ x, (Config.mk 1 0 0 1 (some 1) (some 2) false).headcrop = some x → 0 ≤ x) ∧
    (∀ x, (Config.mk 1 0 0 1 (some 1) (some 2) false).tailcrop = some x → 0 < x) ∧
    ((Rec.mk "w" ['A', 'C', 'G', 'T', 'A', 'C'] [30, 30, 30, 30, 30, 30]).quals.length =
      (Rec.mk "w" ['A', 'C', 'G', 'T', 'A', 'C'] [30, 30, 30, 30, 30, 30]).seq.length) ∧
    (0 ≤ (Config.mk 1 0 0 1 (some 1) (some 2) false).length) ∧
    ((Config.mk 1 0 0 1 (some 1) (some 2) false).length +
        (Config.mk 1 0 0 1 (some 1) (some 2) false).headcrop.getD 0 +
        (Config.mk 1 0 0 1 (some 1) (some 2) false).tailcrop.getD 0 <
      ((Rec.mk "w" ['A', 'C', 'G', 'T', 'A', 'C'] [30, 30, 30, 30, 30, 30]).seq.length : Int)) ∧
    (((trim (normalize (Config.mk 1 0 0 1 (some 1) (some 2) false))
          (Rec.mk "w" ['A', 'C', 'G', 'T', 'A', 'C'] [30, 30, 30, 30, 30, 30])).seq.length : Int) =
        ((Rec.mk "w" ['A', 'C', 'G', 'T', 'A', 'C'] [30, 30, 30, 30, 30, 30]).seq.length : Int) -
          (Config.mk 1 0 0 1 (some 1) (some 2) false).headcrop.getD 0 -
          (Config.mk 1 0 0 1 (some 1) (some 2) false).tailcrop.getD 0 ∧
      (trim (normalize (Config.mk 1 0 0 1 (some 1) (some 2) false))
          (Rec.mk "w" ['A', 'C', 'G', 'T', 'A', 'C'] [30, 30, 30, 30, 30, 30])).quals.length =
        (trim (normalize (Config.mk 1 0 0 1 (some 1) (some 2) false))
          (Rec.mk "w" ['A', 'C', 'G', 'T', 'A', 'C'] [30, 30, 30, 30, 30, 30])).seq.length ∧
      (trim (normalize (Config.mk 1 0 0 1 (some 1) (some 2) false))
          (Rec.mk "w" ['A', 'C', 'G', 'T', 'A', 'C'] [30, 30, 30, 30, 30, 30])).seq =
        ((Rec.mk "w" ['A', 'C', 'G', 'T', 'A', 'C'] [30, 30, 30, 30, 30, 30]).seq.drop
            ((Config.mk 1 0 0 1 (some 1) (some 2) false).headcrop.getD 0).toNat).take
          ((Rec.mk "w" ['A', 'C', 'G', 'T', 'A', 'C'] [30, 30, 30, 30, 30, 30]).seq.length -
            ((Config.mk 1 0 0 1 (some 1) (some 2) false).headcrop.getD 0).toNat -
            ((Config.mk 1 0 0 1 (some 1) (some 2) false).tailcrop.getD 0).toNat) ∧
      (trim (normalize (Config.mk 1 0 0 1 (some 1) (some 2) false))
          (Rec.mk "w" ['A', 'C', 'G', 'T', 'A', 'C'] [30, 30, 30, 30, 30, 30])).quals =
        ((Rec.mk "w" ['A', 'C', 'G', 'T', 'A', 'C'] [30, 30, 30, 30, 30, 30]).quals.drop
            ((Config.mk 1 0 0 1 (some 1) (some 2) false).headcrop.getD 0).toNat).take
          ((Rec.mk "w" ['A', 'C', 'G', 'T', 'A', 'C'] [30, 30, 30, 30, 30, 30]).seq.length -
            ((Config.mk 1 0 0 1 (some 1) (some 2) false).headcrop.getD 0).toNat -
            ((Config.mk 1 0 0 1 (some 1) (some 2) false).tailcrop.getD 0).toNat)) :=
  ⟨(fun x hx => by cases hx; decide), (fun x hx => by cases hx; decide), rfl, by decide,
   by decide,
   trim_invariant (Config.mk 1 0 0 1 (some 1) (some 2) false)
     (Rec.mk "w" ['A', 'C', 'G', 'T', 'A', 'C'] [30, 30, 30, 30, 30, 30])
     (fun x hx => by cases hx; decide) (fun x hx => by cases hx; decide) rfl (by decide)
     (by decide)⟩

/-- C5 counterexample: with a configured tail crop of exactly 0 (a valid
non-negative value, not absent), the accepted four-base record is emitted,
yet its trimmed sequence length is not
`original length - head - tail = 4 - 0 - 0`: the truthiness guard leaves
`tailcrop = 0` un-negated and the slice `[None:0]` empties the record. -/
theorem trim_invariant_counterexample :
    (∀ x, (Config.mk 1 0 0 1 none (some 0) false).tailcrop = some x → 0 ≤ x) ∧
    filter_stream (normalize (Config.mk 1 0 0 1 none (some 0) false))
        [Rec.mk "r" ['A', 'C', 'G', 'T'] [30, 30, 30, 30]] =
      ([trim (normalize (Config.mk 1 0 0 1 none (some 0) false))
          (Rec.mk "r" ['A', 'C', 'G', 'T'] [30, 30, 30, 30])], none) ∧
    ¬ (((trim (normalize (Config.mk 1 0 0 1 none (some 0) false))
          (Rec.mk "r" ['A', 'C', 'G', 'T'] [30, 30, 30, 30])).seq.length : Int) =
        ((Rec.mk "r" ['A', 'C', 'G', 'T'] [30, 30, 30, 30]).seq.length : Int) -
          (Config.mk 1 0 0 1 none (some 0) false).headcrop.getD 0 -
          (Config.mk 1 0 0 1 none (some 0) false).tailcrop.getD 0) := by
  have hn : normalize (Config.mk 1 0 0 1 none (some 0) false) =
      Config.mk 1 0 0 1 none (some 0) false := rfl
  refine ⟨(fun x hx => by cases hx; decide), ?_, by decide⟩
  rw [hn]
  have haq : ave_qual (Rec.mk "r" ['A', 'C', 'G', 'T'] [30, 30, 30, 30]).quals =
      some ((30 : Nat) : Real) := ave_qual_replicate 4 30 (by decide)
  have hcond : (((Config.mk 1 0 0 1 none (some 0) false).quality : Real) <
      ((30 : Nat) : Real) ∧
      minlen (Config.mk 1 0 0 1 none (some 0) false) <
        ((Rec.mk "r" ['A', 'C', 'G', 'T'] [30, 30, 30, 30]).seq.length : Int) ∧
      ((Config.mk 1 0 0 1 none (some 0) false).minGC ≤ (1 / 2 : Rat) ∧
        (1 / 2 : Rat) ≤ (Config.mk 1 0 0 1 none (some 0) false).maxGC)) := by
    refine ⟨by norm_num, by decide, by norm_num, by norm_num⟩
  simp [filter_stream, haq, hcond]
  exact ⟨by decide, by norm_num⟩

/-- C10: a configured tail crop of exactly 0 is not equivalent to an
absent tail crop.  The truthiness guard of `main` leaves `tailcrop = 0`
unchanged by normalization; every record then trims to an empty sequence
and empty quality list, so on both filter paths every emitted record is
empty — whereas with an absent tail crop (and head crop `h ≥ 0`) the trim
keeps the full remaining record from `h` onward. -/
theorem tailcrop_zero_not_absent (args : Config) (r s1 s2 : Rec)
    (data : String → Option Real) (recs recs2 : List Rec)
    (h0 : args.tailcrop = some 0) :
    normalize args = args ∧
    (trim (normalize args) r).seq = [] ∧
    (trim (normalize args) r).quals = [] ∧
    (s1 ∈ (filter_stream (normalize args) recs).1 → s1.seq = [] ∧ s1.quals = []) ∧
    (s2 ∈ (filter_using_summary data (normalize args) recs2).1 →
      s2.seq = [] ∧ s2.quals = []) ∧
    (∀ h : Int, 0 ≤ h →
      (trim { args with headcrop := some h, tailcrop := none } r).seq =
        r.seq.drop h.toNat ∧
      (trim { args with headcrop := some h, tailcrop := none } r).quals =
        r.quals.drop h.toNat) := by
  have hnorm : normalize args = args := by
    simp [normalize, h0]
  have htrim : ∀ s : Rec,
      (trim (normalize args) s).seq = [] ∧ (trim (normalize args) s).quals = [] := by
    intro s
    rw [hnorm]
    constructor
    · show pyslice s.seq args.headcrop args.tailcrop = []
      rw [h0]
      exact pyslice_stop_zero _ _
    · show pyslice s.quals args.headcrop args.tailcrop = []
      rw [h0]
      exact pyslice_stop_zero _ _
  refine ⟨hnorm, (htrim r).1, (htrim r).2, ?_, ?_, ?_⟩
  · intro hs
    obtain ⟨r2, -, he⟩ := filter_stream_emitted_trim _ _ _ hs
    rw [he]
    exact htrim r2
  · intro hs
    obtain ⟨r2, -, he⟩ := filter_summary_emitted_trim _ _ _ _ hs
    rw [he]
    exact htrim r2
  · intro h hpos
    constructor
    · show pyslice r.seq (some h) none = _
      exact pyslice_stop_none _ _ hpos
    · show pyslice r.quals (some h) none = _
      exact pyslice_stop_none _ _ hpos

/-- Witness for C10 at a concrete configuration, records, index and
streams. -/
theorem tailcrop_zero_not_absent_witness :
    ((Config.mk 1 0 0 1 none (some 0) false).tailcrop = some 0) ∧
    (normalize (Config.mk 1 0 0 1 none (some 0) false) =
        Config.mk 1 0 0 1 none (some 0) false ∧
      (trim (normalize (Config.mk 1 0 0 1 none (some 0) false))
          (Rec.mk "r" ['A', 'C', 'G', 'T'] [30, 30, 30, 30])).seq = [] ∧
      (trim (normalize (Config.mk 1 0 0 1 none (some 0) false))
          (Rec.mk "r" ['A', 'C', 'G', 'T'] [30, 30, 30, 30])).quals = [] ∧
      (Rec.mk "s" ['A'] [1] ∈
          (filter_stream (normalize (Config.mk 1 0 0 1 none (some 0) false))
            [Rec.mk "r" ['A', 'C', 'G', 'T'] [30, 30, 30, 30]]).1 →
        (Rec.mk "s" ['A'] [1]).seq = [] ∧ (Rec.mk "s" ['A'] [1]).quals = []) ∧
      (Rec.mk "s" ['A'] [1] ∈
          (filter_using_summary (fun _ => some (20 : Real))
            (normalize (Config.mk 1 0 0 1 none (some 0) false))
            [Rec.mk "r" ['A', 'C', 'G', 'T'] [30, 30, 30, 30]]).1 →
        (Rec.mk "s" ['A'] [1]).seq = [] ∧ (Rec.mk "s" ['A'] [1]).quals = []) ∧
      (∀ h : Int, 0 ≤ h →
        (trim { Config.mk 1 0 0 1 none (some 0) false with
            headcrop := some h, tailcrop := none }
          (Rec.mk "r" ['A', 'C', 'G', 'T'] [30, 30, 30, 30])).seq =
          (Rec.mk "r" ['A', 'C', 'G', 'T'] [30, 30, 30, 30]).seq.drop h.toNat ∧
        (trim { Config.mk 1 0 0 1 none (some 0) false with
            headcrop := some h, tailcrop := none }
          (Rec.mk "r" ['A', 'C', 'G', 'T'] [30, 30, 30, 30])).quals =
          (Rec.mk "r" ['A', 'C', 'G', 'T'] [30, 30, 30, 30]).quals.drop h.toNat)) :=
  ⟨rfl,
   tailcrop_zero_not_absent (Config.mk 1 0 0 1 none (some 0) false)
     (Rec.mk "r" ['A', 'C', 'G', 'T'] [30, 30, 30, 30]) (Rec.mk "s" ['A'] [1])
     (Rec.mk "s" ['A'] [1]) (fun _ => some (20 : Real))
     [Rec.mk "r" ['A', 'C', 'G', 'T'] [30, 30, 30, 30]]
     [Rec.mk "r" ['A', 'C', 'G', 'T'] [30, 30, 30, 30]] rfl⟩
